import Mathlib

/-!
Shallow embedding of the webxenon crawler: the frontier (queue table), the
page store (pages table), and the orchestration callbacks, translated from
src/WebCrawler.ts and the unnamed source files part_001 and part_002.

The durable MySQL tables are modelled as Lean lists of rows, AUTO_INCREMENT
ids as max id + 1, and each SQL statement as a pure function on that state.
-/

namespace WebXenon

/-- One row of the queue (frontier) table as created by part_001's
createTables: id AUTO_INCREMENT, url (UNIQUE), depth INT DEFAULT 0,
is_crawled TINYINT DEFAULT 0. -/
structure Entry where
  id : Nat
  url : String
  depth : Nat
  isCrawled : Bool
deriving Repr, DecidableEq

abbrev Frontier := List Entry

/-- The WHERE clause of part_001's dequeueUrl SELECT:
is_crawled = 0 AND depth <= maxDepth. -/
def eligible (maxD : Nat) (e : Entry) : Bool :=
  !e.isCrawled && decide (e.depth ≤ maxD)

/-- The ORDER BY depth ASC, id ASC comparison of dequeueUrl. -/
def lexLt (a b : Entry) : Bool :=
  decide (a.depth < b.depth) || (a.depth == b.depth && decide (a.id < b.id))

/-- First row of the ORDER BY order: the minimum of the list under lexLt. -/
def pickMin : Option Entry → List Entry → Option Entry
  | acc, [] => acc
  | none, e :: rest => pickMin (some e) rest
  | some a, e :: rest => pickMin (if lexLt e a then some e else some a) rest

/-- The row produced by part_001 dequeueUrl's SELECT id FROM queue WHERE
is_crawled = 0 AND depth <= ? ORDER BY depth ASC, id ASC LIMIT 1. -/
def selectNext (st : Frontier) (maxD : Nat) : Option Entry :=
  pickMin none (st.filter (eligible maxD))

/-- part_001 dequeueUrl's UPDATE queue SET is_crawled = 1 WHERE id IN (?),
with the single selected id. -/
def dequeueMark (st : Frontier) (i : Nat) : Frontier :=
  st.map (fun e => if e.id == i then { e with isCrawled := true } else e)

/-- The id that part_001 dequeueUrl's code extracts from the SELECT result. -/
def dequeueSelect (st : Frontier) (maxD : Nat) : Option Nat :=
  (selectNext st maxD).map (fun e => e.id)

/-- The mysql2 row object returned for SELECT id: it carries only the id
column, modelled as an association list of column name to value. -/
def selectIdRow (e : Entry) : List (String × String) := [("id", toString e.id)]

/-- Default value of this.urlColumnName. -/
def urlColumnName : String := "url"

/-- part_001 dequeueUrl: select the first eligible row (ORDER BY depth, id),
mark it crawled, and return rows[0][this.urlColumnName], i.e. the JS property
lookup of the url column on the selected row object; a missing property is
undefined, modelled as none. -/
def dequeueUrl (st : Frontier) (maxD : Nat) : Option String × Frontier :=
  match selectNext st maxD with
  | none => (none, st)
  | some e => ((selectIdRow e).lookup urlColumnName, dequeueMark st e.id)

/-- The mysql2 rows array produced by getNextUrl's SELECT url FROM queue
WHERE is_crawled = false LIMIT 1 FOR UPDATE: at most one row object, each
carrying only the url column. -/
def selectUrlRows (st : Frontier) : List (List (String × String)) :=
  ((st.filter (fun e => !e.isCrawled)).take 1).map
    (fun e => [(urlColumnName, e.url)])

/-- JS property access arr[name] on an array value: the own string-keyed
properties of an array are its numeric indices, so a column name such as url
matches none of them and the access yields undefined. -/
def rowsArrayProp (rows : List (List (String × String))) (name : String) :
    Option (List (String × String)) :=
  (rows.enum.map (fun p => (toString p.1, p.2))).lookup name

/-- WebCrawler.ts getNextUrl (lines 148-162): const [row] = await
conn.query(..) destructures the [rows, fields] result pair of mysql2/promise,
so row is the whole rows array; row[this.urlColumnName] is then a property
access on that array, which yields undefined, and the function falls through
to return null (none). No UPDATE is issued, so the table state is returned
unchanged. -/
def getNextUrlStep (st : Frontier) :
    Option (List (String × String)) × Frontier :=
  let row := selectUrlRows st
  (rowsArrayProp row urlColumnName, st)

/-- Two concurrent dequeueUrl calls whose SELECT statements both execute
before either UPDATE: the SELECT and the UPDATE are separate autocommitted
queries on separate pool connections, so this interleaving is allowed by the
code. Each caller marks and returns the id its own SELECT produced. -/
def twoDequeuesInterleaved (st : Frontier) (maxD : Nat) :
    Option Nat × Option Nat × Frontier :=
  let a := dequeueSelect st maxD
  let b := dequeueSelect st maxD
  let st1 := match a with | some i => dequeueMark st i | none => st
  let st2 := match b with | some i => dequeueMark st1 i | none => st1
  (a, b, st2)

/-- AUTO_INCREMENT id for a fresh row; no row is ever deleted, so max + 1. -/
def nextId (st : Frontier) : Nat :=
  st.foldl (fun m e => max m e.id) 0 + 1

/-- One frontier insert that skips an already-present url: WebCrawler.ts uses
INSERT IGNORE, part_001 catches ER_DUP_ENTRY on the UNIQUE url key, part_002
does SELECT-then-INSERT; all three leave the table unchanged when the url is
already present, whatever that row's is_crawled value. -/
def insertIgnore (st : Frontier) (u : String) (d : Nat) : Frontier :=
  if st.any (fun e => e.url == u) then st
  else st ++ [⟨nextId st, u, d, false⟩]

/-- queueUrls (part_001 lines 296-330): insert each url in order, skipping
duplicates. The INSERT hard-codes the depth parameter to 0 ([url, 0]). -/
def queueUrls : Frontier → List String → Frontier
  | st, [] => st
  | st, u :: rest => queueUrls (insertIgnore st u 0) rest

/-- WebCrawler.ts markUrlAsCrawled, and the identical UPDATE queue SET
is_crawled = 1 WHERE url = ? inside processPage of part_001 and part_002. -/
def markUrlAsCrawled (st : Frontier) (u : String) : Frontier :=
  st.map (fun e => if e.url == u then { e with isCrawled := true } else e)

/-- One row of the pages table (part_001 and part_002 createTables): url
(UNIQUE), title, description (nullable), raw_html. -/
structure PageRow where
  url : String
  title : String
  description : Option String
  rawHtml : String
deriving Repr, DecidableEq

/-- The page-store upsert of processPage (part_002 lines 118-167, part_001
lines 186-233): SELECT by url, then UPDATE title/description/raw_html of the
existing row, else INSERT a fresh row. WebCrawler.ts crawl realises the same
operation with INSERT .. ON DUPLICATE KEY UPDATE of the same three fields. -/
def upsertPage (ps : List PageRow) (u t : String) (d : Option String)
    (raw : String) : List PageRow :=
  if ps.any (fun p => p.url == u) then
    ps.map (fun p =>
      if p.url == u then { p with title := t, description := d, rawHtml := raw }
      else p)
  else ps ++ [⟨u, t, d, raw⟩]

/-- Character-list prefix test, the meaning of the JS String startsWith used
by the link filter. -/
def listStarts : List Char → List Char → Bool
  | [], _ => true
  | _ :: _, [] => false
  | p :: ps, c :: cs => p == c && listStarts ps cs

/-- JS link.startsWith(targetUrl). -/
def jsStartsWith (s tgt : String) : Bool := listStarts tgt.data s.data

/-- The link extractor of processPage (part_002 lines 171-174): take the href
attribute of every anchor (an anchor without the attribute yields undefined,
dropped by the cheerio map), then filter(link => link and
link.startsWith(targetUrl)); JS truthiness drops the empty string. -/
def extractLinks (anchors : List (Option String)) (tgt : String) : List String :=
  (anchors.filterMap id).filter (fun l => (l != "") && jsStartsWith l tgt)

/-- The two durable tables together. -/
structure DB where
  pages : List PageRow
  queue : Frontier
deriving Repr, DecidableEq

/-- The success path of processPage (part_001 lines 166-251, part_002 lines
97-185): upsert the page row, mark the url crawled in the queue, and when
depth < maxDepth enqueue the extracted links via queueUrls. -/
def processPage (db : DB) (u : String) (dep maxD : Nat) (t : String)
    (ds : Option String) (raw : String) (anchors : List (Option String))
    (tgt : String) : DB :=
  let pages1 := upsertPage db.pages u t ds raw
  let queue1 := markUrlAsCrawled db.queue u
  let queue2 :=
    if dep < maxD then queueUrls queue1 (extractLinks anchors tgt) else queue1
  ⟨pages1, queue2⟩

/-- Outcome of one orchestrator callback invocation. -/
structure StepResult where
  db : DB
  doneCalled : Bool
deriving Repr, DecidableEq

/-- The error path of processPage (part_001 lines 171-175): log the fetch
error, call done(), and return; no table is touched. -/
def processPageError (db : DB) : StepResult := ⟨db, true⟩

/-- A JS runtime value, as far as the crawl callback of WebCrawler.ts
inspects one (typeof url !== "string"). -/
inductive JSVal where
  | str : String → JSVal
  | num : Int → JSVal
  | undef : JSVal
deriving Repr, DecidableEq

/-- typeof v === "string". -/
def JSVal.isString : JSVal → Bool
  | .str _ => true
  | _ => false

/-- A pages row of WebCrawler.ts, whose url parameter is whatever value
res.options.uri holds. -/
structure PageRowJ where
  url : JSVal
  title : String
  description : Option String
  rawHtml : String
deriving Repr, DecidableEq

/-- mysql2 parameter binding of a JS value: strings and numbers bind to
themselves (a number is coerced into the VARCHAR column on insert), while
undefined and null bind to SQL NULL. -/
def sqlBindIsNull : JSVal → Bool
  | .undef => true
  | _ => false

/-- The pages table contents once the INSERT .. ON DUPLICATE KEY UPDATE
statement is accepted: insert if the url is new, else overwrite
title/description/raw_html. -/
def odkuWrite (ps : List PageRowJ) (u : JSVal) (t : String) (d : Option String)
    (raw : String) : List PageRowJ :=
  if ps.any (fun p => p.url == u) then
    ps.map (fun p =>
      if p.url == u then { p with title := t, description := d, rawHtml := raw }
      else p)
  else ps ++ [⟨u, t, d, raw⟩]

/-- WebCrawler.ts crawl's INSERT .. ON DUPLICATE KEY UPDATE of
title/description/raw_html (lines 188-191): the pages url column is declared
VARCHAR(255) NOT NULL, so a uri that binds to SQL NULL makes MySQL reject the
whole statement (ER_BAD_NULL_ERROR) and no row is written; any other binding
is accepted. -/
def odkuUpsert (ps : List PageRowJ) (u : JSVal) (t : String) (d : Option String)
    (raw : String) : Except String (List PageRowJ) :=
  if sqlBindIsNull u then Except.error "ER_BAD_NULL_ERROR"
  else Except.ok (odkuWrite ps u t d raw)

/-- Observable outcome of one WebCrawler.ts crawl callback invocation. -/
structure CrawlOutcome where
  pages : List PageRowJ
  queue : Frontier
  markedCrawled : Bool
  doneCalled : Bool
  thrown : Option String
deriving Repr, DecidableEq

/-- The success branch of WebCrawler.ts crawl (lines 179-214). The INSERT
into pages runs first, inside a try with no catch: when it errors (a NULL
url) the error propagates out of the callback at once - no link enqueue, no
typeof check, no mark, no done(). When the statement is accepted, in-scope
links are enqueued when depth < maxDepth, and then the typeof check throws
"url is not string" for a non-string uri - after the upsert and the link
enqueue, before markUrlAsCrawled and before done(). On a string uri the
entry is marked crawled and done() runs. -/
def crawl (pages : List PageRowJ) (queue : Frontier) (uri : JSVal) (t : String)
    (d : Option String) (raw : String) (dep maxD : Nat)
    (anchors : List (Option String)) (tgt : String) : CrawlOutcome :=
  match odkuUpsert pages uri t d raw with
  | Except.error msg => ⟨pages, queue, false, false, some msg⟩
  | Except.ok pages1 =>
    let queue1 :=
      if dep < maxD then queueUrls queue (extractLinks anchors tgt) else queue
    match uri with
    | .str u => ⟨pages1, markUrlAsCrawled queue1 u, true, true, none⟩
    | _ => ⟨pages1, queue1, false, false, some "url is not string"⟩

/-- C1: dequeueUrl marks the first eligible row (depth asc, id asc) as
crawled, but returns undefined rather than that row's URL: the SELECT fetches
only the id column, and the code then reads the url property from that row
object. On a frontier with one unclaimed depth-0 row and maxDepth 3 the call
claims the row yet returns none; on an empty frontier it also returns none,
so the two outcomes are indistinguishable to the caller. -/
theorem c1_dequeueUrl_returns_undefined :
    dequeueUrl [⟨1, "https://example.com", 0, false⟩] 3
      = (none, [⟨1, "https://example.com", 0, true⟩])
    ∧ dequeueUrl [] 3 = (none, []) := by
  decide

/-- C2: the SELECT and UPDATE of dequeueUrl are separate autocommitted
statements, so the interleaving select-select-update-update of two concurrent
calls makes both callers select and mark the same row (id 1), which a
serialized execution would forbid (the second dequeue would find nothing):
the claim step is not an atomic read-modify. WebCrawler.ts getNextUrl is no
claim operation at all: on a frontier with an unclaimed row it still returns
null (the destructured row is the rows array, whose url property is
undefined) and leaves the table unchanged, issuing no mark. -/
theorem c2_concurrent_claims_collide :
    (twoDequeuesInterleaved [⟨1, "https://example.com", 0, false⟩] 3).1 = some 1
    ∧ (twoDequeuesInterleaved [⟨1, "https://example.com", 0, false⟩] 3).2.1 = some 1
    ∧ dequeueSelect (dequeueMark [⟨1, "https://example.com", 0, false⟩] 1) 3 = none
    ∧ (getNextUrlStep [⟨1, "https://example.com", 0, false⟩]).1 = none
    ∧ (getNextUrlStep [⟨1, "https://example.com", 0, false⟩]).2
        = [⟨1, "https://example.com", 0, false⟩] := by
  decide

/-- C4: processPage on a page fetched at depth 1 (with maxDepth 3) enqueues
the extracted in-scope link with depth 0, not with depth 1 + 1: queueUrls
hard-codes the inserted depth to 0. -/
theorem c4_links_enqueued_at_depth_zero :
    ((processPage ⟨[], [⟨1, "https://e.com", 0, true⟩]⟩ "https://e.com" 1 3 "t"
        none "raw" [some "https://e.com/a"] "https://e.com").queue.any
      (fun r => r.url == "https://e.com/a" && r.depth == 0)) = true
    ∧ ((processPage ⟨[], [⟨1, "https://e.com", 0, true⟩]⟩ "https://e.com" 1 3 "t"
        none "raw" [some "https://e.com/a"] "https://e.com").queue.any
      (fun r => r.url == "https://e.com/a" && r.depth == 1 + 1)) = false := by
  decide

theorem pickMin_nil (acc : Option Entry) : pickMin acc [] = acc := by
  cases acc <;> rfl

theorem queueUrls_nil (st : Frontier) : queueUrls st [] = st := rfl

theorem queueUrls_cons (st : Frontier) (u : String) (rest : List String) :
    queueUrls st (u :: rest) = queueUrls (insertIgnore st u 0) rest := rfl

theorem pickMin_mem : ∀ (l : List Entry) (acc : Option Entry) (e : Entry),
    pickMin acc l = some e → acc = some e ∨ e ∈ l := by
  intro l
  induction l with
  | nil => intro acc e h; rw [pickMin_nil] at h; exact Or.inl h
  | cons x rest ih =>
    intro acc e h
    match acc with
    | none =>
      have h2 := ih (some x) e h
      rcases h2 with h2 | h2
      · injection h2 with hx
        subst hx
        exact Or.inr (List.mem_cons_self _ _)
      · exact Or.inr (List.mem_cons_of_mem _ h2)
    | some a =>
      have h2 := ih (if lexLt x a then some x else some a) e h
      rcases h2 with h2 | h2
      · by_cases hlt : lexLt x a
        · rw [if_pos hlt] at h2
          injection h2 with hx
          subst hx
          exact Or.inr (List.mem_cons_self _ _)
        · rw [if_neg hlt] at h2
          exact Or.inl h2
      · exact Or.inr (List.mem_cons_of_mem _ h2)

theorem selectNext_spec (st : Frontier) (maxD : Nat) (e : Entry)
    (h : selectNext st maxD = some e) :
    e ∈ st ∧ e.isCrawled = false ∧ e.depth ≤ maxD := by
  have h2 := pickMin_mem _ none e h
  rcases h2 with h2 | h2
  · exact Option.noConfusion h2
  · have h3 := List.mem_filter.mp h2
    have h4 := h3.2
    simp only [eligible, Bool.and_eq_true, Bool.not_eq_true',
      decide_eq_true_eq] at h4
    exact ⟨h3.1, h4.1, h4.2⟩

theorem mem_insertIgnore (st : Frontier) (u : String) (d : Nat) (e : Entry)
    (h : e ∈ st) : e ∈ insertIgnore st u d := by
  unfold insertIgnore
  split
  · exact h
  · exact List.mem_append_left _ h

theorem mem_queueUrls (urls : List String) : ∀ (st : Frontier) (e : Entry),
    e ∈ st → e ∈ queueUrls st urls := by
  induction urls with
  | nil => intro st e h; exact h
  | cons u rest ih =>
    intro st e h
    exact ih _ _ (mem_insertIgnore _ _ _ _ h)

theorem any_queueUrls_of_any (st : Frontier) (urls : List String)
    (p : Entry → Bool) (h : st.any p = true) :
    (queueUrls st urls).any p = true := by
  rcases List.any_eq_true.mp h with ⟨e, he, hp⟩
  exact List.any_eq_true.mpr ⟨e, mem_queueUrls urls st e he, hp⟩

theorem any_url_insertIgnore (st : Frontier) (u : String) (d : Nat) :
    ((insertIgnore st u d).any (fun e => e.url == u)) = true := by
  cases hb : st.any (fun e => e.url == u) with
  | true => simp [insertIgnore, hb]
  | false => simp [insertIgnore, hb, List.any_append]

theorem any_url_queueUrls_of_mem (urls : List String) :
    ∀ (st : Frontier) (l : String), l ∈ urls →
    ((queueUrls st urls).any (fun e => e.url == l)) = true := by
  induction urls with
  | nil => intro st l h; cases h
  | cons u rest ih =>
    intro st l h
    rcases List.mem_cons.mp h with h | h
    · subst h
      rw [queueUrls_cons]
      exact any_queueUrls_of_any _ _ _ (any_url_insertIgnore st l 0)
    · rw [queueUrls_cons]
      exact ih _ _ h

/-- Number of rows of l matched by p. -/
def countMatch {α : Type} (p : α → Bool) (l : List α) : Nat :=
  (l.filter p).length

theorem countMatch_append {α : Type} (p : α → Bool) (l1 l2 : List α) :
    countMatch p (l1 ++ l2) = countMatch p l1 + countMatch p l2 := by
  simp [countMatch, List.filter_append]

theorem any_false_of_mem {α : Type} {p : α → Bool} {l : List α}
    (h : l.any p = false) {a : α} (ha : a ∈ l) : p a = false := by
  cases hp : p a
  · rfl
  · have h2 := List.any_eq_true.mpr ⟨a, ha, hp⟩
    simp [h] at h2

theorem countMatch_eq_zero {α : Type} (p : α → Bool) (l : List α)
    (h : l.any p = false) : countMatch p l = 0 := by
  induction l with
  | nil => rfl
  | cons a l ih =>
    simp only [List.any_cons, Bool.or_eq_false_iff] at h
    simp only [countMatch, List.filter_cons, h.1, Bool.false_eq_true,
      if_false]
    exact ih h.2

theorem countMatch_pos {α : Type} (p : α → Bool) (l : List α)
    (h : l.any p = true) : 1 ≤ countMatch p l := by
  rcases List.any_eq_true.mp h with ⟨a, ha, hp⟩
  have h2 : a ∈ l.filter p := List.mem_filter.mpr ⟨ha, hp⟩
  have h3 := List.length_pos.mpr (List.ne_nil_of_mem h2)
  simpa [countMatch] using h3

theorem countMatch_map {α : Type} (p : α → Bool) (f : α → α)
    (hf : ∀ a, p (f a) = p a) (l : List α) :
    countMatch p (l.map f) = countMatch p l := by
  induction l with
  | nil => rfl
  | cons a l ih =>
    simp only [List.map_cons, countMatch, List.filter_cons, hf a]
    cases hp : p a
    · simpa [countMatch] using ih
    · simpa [countMatch] using ih

/-- Number of frontier rows whose url is u. -/
def countUrl (st : Frontier) (u : String) : Nat :=
  countMatch (fun e => e.url == u) st

/-- Number of page rows whose url is u. -/
def countPage (ps : List PageRow) (u : String) : Nat :=
  countMatch (fun q => q.url == u) ps

theorem insertIgnore_of_any (st : Frontier) (u : String) (d : Nat)
    (hb : st.any (fun e => e.url == u) = true) : insertIgnore st u d = st := by
  simp [insertIgnore, hb]

theorem countUrl_insertIgnore_ne (st : Frontier) (u l : String) (d : Nat)
    (h : u ≠ l) : countUrl (insertIgnore st u d) l = countUrl st l := by
  cases hb : st.any (fun e => e.url == u) with
  | true => rw [insertIgnore_of_any st u d hb]
  | false =>
    have hrow : ((⟨nextId st, u, d, false⟩ : Entry).url == l) = false := by
      simp [h]
    simp only [insertIgnore, hb, Bool.false_eq_true, if_false]
    show countMatch (fun e => e.url == l)
        (st ++ [⟨nextId st, u, d, false⟩]) = countUrl st l
    rw [countMatch_append]
    simp [countUrl, countMatch, List.filter_cons, hrow]

theorem countUrl_queueUrls_not_mem (urls : List String) :
    ∀ (st : Frontier) (l : String), l ∉ urls →
    countUrl (queueUrls st urls) l = countUrl st l := by
  induction urls with
  | nil => intro st l _; rfl
  | cons u rest ih =>
    intro st l h
    have h1 : l ≠ u := fun he => h (he ▸ List.mem_cons_self u rest)
    have h2 : l ∉ rest := fun hm => h (List.mem_cons_of_mem _ hm)
    calc countUrl (queueUrls (insertIgnore st u 0) rest) l
        = countUrl (insertIgnore st u 0) l := ih _ _ h2
      _ = countUrl st l :=
          countUrl_insertIgnore_ne _ _ _ _ (fun he => h1 he.symm)

/-- C3: enqueueing a url twice leaves exactly one frontier row for it, given
the table's UNIQUE url constraint (at most one pre-existing row); enqueueing
a url that is already present, whatever its is_crawled value, leaves the
table unchanged, and the model is a total function: the duplicate insert
raises no error (INSERT IGNORE in WebCrawler.ts, the ER_DUP_ENTRY catch in
part_001, the SELECT-then-INSERT guard in part_002). -/
theorem c3_queueUrls_idempotent (st : Frontier) (u : String)
    (h : countUrl st u ≤ 1) :
    queueUrls (queueUrls st [u]) [u] = queueUrls st [u]
    ∧ countUrl (queueUrls (queueUrls st [u]) [u]) u = 1
    ∧ ((st.any fun e => e.url == u) = true → queueUrls st [u] = st) := by
  have hq : ∀ s : Frontier, queueUrls s [u] = insertIgnore s u 0 :=
    fun s => rfl
  have hidem : queueUrls (queueUrls st [u]) [u] = queueUrls st [u] := by
    rw [hq, hq]
    exact insertIgnore_of_any _ _ _ (any_url_insertIgnore st u 0)
  refine ⟨hidem, ?_, ?_⟩
  · rw [hidem, hq]
    cases hb : st.any (fun e => e.url == u) with
    | true =>
      rw [insertIgnore_of_any _ _ _ hb]
      have h1 : 1 ≤ countUrl st u := countMatch_pos _ _ hb
      omega
    | false =>
      have h0 : countUrl st u = 0 := countMatch_eq_zero _ _ hb
      simp only [insertIgnore, hb, Bool.false_eq_true, if_false]
      show countMatch (fun e => e.url == u)
          (st ++ [⟨nextId st, u, 0, false⟩]) = 1
      rw [countMatch_append]
      have h1 : countMatch (fun e => e.url == u)
          [(⟨nextId st, u, 0, false⟩ : Entry)] = 1 := by
        simp [countMatch, List.filter_cons]
      have h0x : countMatch (fun e => e.url == u) st = 0 := h0
      omega
  · intro hb
    rw [hq]
    exact insertIgnore_of_any _ _ _ hb

/-- Witness for C3 at a concrete frontier already holding the url. -/
theorem c3_witness :
    countUrl [⟨1, "https://b", 0, true⟩] "https://b" ≤ 1
    ∧ (queueUrls (queueUrls [⟨1, "https://b", 0, true⟩] ["https://b"])
          ["https://b"]
        = queueUrls [⟨1, "https://b", 0, true⟩] ["https://b"]
      ∧ countUrl (queueUrls (queueUrls [⟨1, "https://b", 0, true⟩]
          ["https://b"]) ["https://b"]) "https://b" = 1
      ∧ (([⟨1, "https://b", 0, true⟩] : Frontier).any
            (fun e => e.url == "https://b") = true →
          queueUrls [⟨1, "https://b", 0, true⟩] ["https://b"]
            = [⟨1, "https://b", 0, true⟩])) :=
  ⟨by decide, c3_queueUrls_idempotent _ _ (by decide)⟩

theorem map_self {α : Type} (f : α → α) : ∀ (l : List α),
    (∀ a ∈ l, f a = a) → l.map f = l := by
  intro l
  induction l with
  | nil => intro _; rfl
  | cons a l ih =>
    intro h
    rw [List.map_cons, h a (List.mem_cons_self a l),
      ih (fun b hb => h b (List.mem_cons_of_mem _ hb))]

theorem upsertPage_of_any (ps : List PageRow) (u t : String)
    (d : Option String) (raw : String)
    (hb : (ps.any fun p => p.url == u) = true) :
    upsertPage ps u t d raw = ps.map (fun p =>
      if p.url == u then { p with title := t, description := d, rawHtml := raw }
      else p) := by
  simp only [upsertPage, hb, if_true]

theorem upsertPage_of_not_any (ps : List PageRow) (u t : String)
    (d : Option String) (raw : String)
    (hb : (ps.any fun p => p.url == u) = false) :
    upsertPage ps u t d raw = ps ++ [⟨u, t, d, raw⟩] := by
  simp only [upsertPage, hb, Bool.false_eq_true, if_false]

theorem any_url_upsertPage (ps : List PageRow) (u t : String)
    (d : Option String) (raw : String) :
    ((upsertPage ps u t d raw).any fun p => p.url == u) = true := by
  cases hb : ps.any (fun p => p.url == u) with
  | true =>
    rw [upsertPage_of_any _ _ _ _ _ hb]
    rcases List.any_eq_true.mp hb with ⟨p, hp, hpu⟩
    apply List.any_eq_true.mpr
    exact ⟨_, List.mem_map_of_mem _ hp, by simp [hpu]⟩
  | false =>
    rw [upsertPage_of_not_any _ _ _ _ _ hb]
    simp [List.any_append]

theorem upsertPage_rows (ps : List PageRow) (u t : String)
    (d : Option String) (raw : String) :
    ∀ p ∈ upsertPage ps u t d raw, p.url = u → p = ⟨u, t, d, raw⟩ := by
  intro p hp hpu
  cases hb : ps.any (fun q => q.url == u) with
  | true =>
    rw [upsertPage_of_any _ _ _ _ _ hb] at hp
    rcases List.mem_map.mp hp with ⟨q, hq, hfq⟩
    by_cases hqu : (q.url == u) = true
    · rw [if_pos hqu] at hfq
      have hqu2 : q.url = u := by simpa using hqu
      cases q with
      | mk qu qt qd qr => simp_all
    · rw [if_neg hqu] at hfq
      subst hfq
      exact absurd (by simpa using hpu) hqu
  | false =>
    rw [upsertPage_of_not_any _ _ _ _ _ hb] at hp
    rcases List.mem_append.mp hp with hmem | hmem
    · have hfalse := any_false_of_mem hb hmem
      simp only [hpu] at hfalse
      simp at hfalse
    · simpa using hmem

theorem upsertPage_idem (ps : List PageRow) (u t : String)
    (d : Option String) (raw : String) :
    upsertPage (upsertPage ps u t d raw) u t d raw
      = upsertPage ps u t d raw := by
  rw [upsertPage_of_any _ _ _ _ _ (any_url_upsertPage ps u t d raw)]
  apply map_self
  intro p hp
  by_cases hpu : (p.url == u) = true
  · have h1 : p = ⟨u, t, d, raw⟩ :=
      upsertPage_rows ps u t d raw p hp (by simpa using hpu)
    rw [if_pos hpu, h1]
  · rw [if_neg hpu]

theorem countPage_upsert (ps : List PageRow) (u t : String)
    (d : Option String) (raw : String) (h : countPage ps u ≤ 1) :
    countPage (upsertPage ps u t d raw) u = 1 := by
  cases hb : ps.any (fun p => p.url == u) with
  | true =>
    rw [upsertPage_of_any _ _ _ _ _ hb]
    have hmap : countPage (ps.map (fun p =>
        if p.url == u then { p with title := t, description := d, rawHtml := raw }
        else p)) u = countPage ps u := by
      apply countMatch_map
      intro p
      by_cases hpu : (p.url == u) = true
      · simp [hpu]
      · simp only [if_neg hpu]
    rw [hmap]
    have h1 : 1 ≤ countPage ps u := countMatch_pos _ _ hb
    omega
  | false =>
    rw [upsertPage_of_not_any _ _ _ _ _ hb]
    show countMatch (fun q => q.url == u) (ps ++ [⟨u, t, d, raw⟩]) = 1
    rw [countMatch_append]
    have h0 : countMatch (fun q : PageRow => q.url == u) ps = 0 :=
      countMatch_eq_zero _ _ hb
    have h1 : countMatch (fun q : PageRow => q.url == u)
        [(⟨u, t, d, raw⟩ : PageRow)] = 1 := by
      simp [countMatch, List.filter_cons]
    omega

theorem mem_upsertPage_ne (ps : List PageRow) (u t : String)
    (d : Option String) (raw : String) :
    ∀ p ∈ ps, p.url ≠ u → p ∈ upsertPage ps u t d raw := by
  intro p hp hne
  cases hb : ps.any (fun q => q.url == u) with
  | true =>
    rw [upsertPage_of_any _ _ _ _ _ hb]
    have hpu : (p.url == u) = false := by simp [hne]
    have h1 : (if p.url == u
        then { p with title := t, description := d, rawHtml := raw }
        else p) = p := by rw [hpu]; simp
    exact h1 ▸ List.mem_map_of_mem _ hp
  | false =>
    rw [upsertPage_of_not_any _ _ _ _ _ hb]
    exact List.mem_append_left _ hp

/-- C5: the page-store upsert is a pure replace-on-conflict: upserting the
same (url, title, description, content) twice equals upserting it once;
under the UNIQUE url constraint exactly one row for the url remains and its
fields are the upserted tuple; rows for other urls are untouched (and a
fresh url is appended as a new row, per upsertPage_of_not_any). -/
theorem c5_upsertPage_spec (ps : List PageRow) (u t : String)
    (d : Option String) (raw : String) (h : countPage ps u ≤ 1) :
    upsertPage (upsertPage ps u t d raw) u t d raw = upsertPage ps u t d raw
    ∧ countPage (upsertPage ps u t d raw) u = 1
    ∧ (∀ p ∈ upsertPage ps u t d raw, p.url = u → p = ⟨u, t, d, raw⟩)
    ∧ (∀ p ∈ ps, p.url ≠ u → p ∈ upsertPage ps u t d raw) :=
  ⟨upsertPage_idem ps u t d raw, countPage_upsert ps u t d raw h,
   upsertPage_rows ps u t d raw, mem_upsertPage_ne ps u t d raw⟩

/-- Witness for C5 at a concrete page store holding the url and one other. -/
theorem c5_witness :
    countPage [⟨"https://a", "old", none, "x"⟩, ⟨"https://b", "keep", none, "y"⟩]
      "https://a" ≤ 1
    ∧ (upsertPage (upsertPage [⟨"https://a", "old", none, "x"⟩,
          ⟨"https://b", "keep", none, "y"⟩] "https://a" "t" (some "d") "raw")
          "https://a" "t" (some "d") "raw"
        = upsertPage [⟨"https://a", "old", none, "x"⟩,
            ⟨"https://b", "keep", none, "y"⟩] "https://a" "t" (some "d") "raw"
      ∧ countPage (upsertPage [⟨"https://a", "old", none, "x"⟩,
          ⟨"https://b", "keep", none, "y"⟩] "https://a" "t" (some "d") "raw")
          "https://a" = 1
      ∧ (∀ p ∈ upsertPage [⟨"https://a", "old", none, "x"⟩,
          ⟨"https://b", "keep", none, "y"⟩] "https://a" "t" (some "d") "raw",
          p.url = "https://a" → p = ⟨"https://a", "t", some "d", "raw"⟩)
      ∧ (∀ p ∈ [(⟨"https://a", "old", none, "x"⟩ : PageRow),
          ⟨"https://b", "keep", none, "y"⟩], p.url ≠ "https://a" →
          p ∈ upsertPage [⟨"https://a", "old", none, "x"⟩,
            ⟨"https://b", "keep", none, "y"⟩] "https://a" "t" (some "d") "raw")) :=
  ⟨by decide, c5_upsertPage_spec _ _ _ _ _ (by decide)⟩

/-- C6: processPage always upserts the fetched page (so a url fetched at
depth == maxDepth is still persisted), leaves the queue exactly
markUrlAsCrawled when depth = maxDepth (no link row is added), and enqueues
every extracted link when depth < maxDepth. -/
theorem c6_depth_gate (db : DB) (u : String) (dep maxD : Nat) (t : String)
    (ds : Option String) (raw : String) (anchors : List (Option String))
    (tgt : String) :
    ((processPage db u dep maxD t ds raw anchors tgt).pages.any
      (fun p => p.url == u)) = true
    ∧ (dep = maxD →
        (processPage db u dep maxD t ds raw anchors tgt).queue
          = markUrlAsCrawled db.queue u)
    ∧ (dep < maxD → ∀ l ∈ extractLinks anchors tgt,
        ((processPage db u dep maxD t ds raw anchors tgt).queue.any
          (fun e => e.url == l)) = true) := by
  refine ⟨?_, ?_, ?_⟩
  · show ((upsertPage db.pages u t ds raw).any fun p => p.url == u) = true
    exact any_url_upsertPage _ _ _ _ _
  · intro hdm
    have hnl : ¬ dep < maxD := by omega
    simp [processPage, hnl]
  · intro hlt l hl
    have hq : (processPage db u dep maxD t ds raw anchors tgt).queue
        = queueUrls (markUrlAsCrawled db.queue u) (extractLinks anchors tgt) := by
      simp [processPage, hlt]
    rw [hq]
    exact any_url_queueUrls_of_mem _ _ _ hl

/-- Witness for C6 at depth == maxDepth on a one-row frontier. -/
theorem c6_witness :
    ((processPage ⟨[], [⟨1, "https://a", 0, false⟩]⟩ "https://a" 0 0 "t" none
        "raw" [some "https://a/x"] "https://a").pages.any
      (fun p => p.url == "https://a")) = true
    ∧ ((0 : Nat) = 0 →
        (processPage ⟨[], [⟨1, "https://a", 0, false⟩]⟩ "https://a" 0 0 "t"
          none "raw" [some "https://a/x"] "https://a").queue
          = markUrlAsCrawled
              (DB.mk [] [⟨1, "https://a", 0, false⟩]).queue "https://a")
    ∧ ((0 : Nat) < 0 → ∀ l ∈ extractLinks [some "https://a/x"] "https://a",
        ((processPage ⟨[], [⟨1, "https://a", 0, false⟩]⟩ "https://a" 0 0 "t"
          none "raw" [some "https://a/x"] "https://a").queue.any
          (fun e => e.url == l)) = true) :=
  c6_depth_gate ⟨[], [⟨1, "https://a", 0, false⟩]⟩ "https://a" 0 0 "t" none
    "raw" [some "https://a/x"] "https://a"

theorem mem_extractLinks (anchors : List (Option String)) (tgt : String)
    (l : String) :
    l ∈ extractLinks anchors tgt
      ↔ some l ∈ anchors ∧ ((l != "") && jsStartsWith l tgt) = true := by
  constructor
  · intro h
    have h1 := List.mem_filter.mp h
    rcases List.mem_filterMap.mp h1.1 with ⟨a, ha, hal⟩
    simp only [id] at hal
    subst hal
    exact ⟨ha, h1.2⟩
  · rintro ⟨ha, hp⟩
    exact List.mem_filter.mpr ⟨List.mem_filterMap.mpr ⟨some l, ha, rfl⟩, hp⟩

theorem data_ne_nil (tgt : String) (h : tgt ≠ "") : tgt.data ≠ [] := by
  intro hd
  apply h
  cases tgt with
  | mk data =>
    simp only at hd
    subst hd
    rfl

theorem jsStartsWith_empty_false (tgt : String) (h : tgt ≠ "") :
    jsStartsWith "" tgt = false := by
  have hd := data_ne_nil tgt h
  show listStarts tgt.data ("" : String).data = false
  have he : ("" : String).data = [] := rfl
  rw [he]
  cases htd : tgt.data with
  | nil => exact absurd htd hd
  | cons a as => rfl

/-- C7 counterexample: with origin prefix "" and a page holding one anchor
whose href is "", the extractor output does not contain "", although "" is
an href value of the page and does start with the prefix "" - JS truthiness
filters the empty string out. So equality with the set of all matching href
values fails for the empty origin prefix. -/
theorem c7_counterexample :
    ¬ (("" ∈ extractLinks [some ""] "")
        ↔ (some "" ∈ ([some ""] : List (Option String))
            ∧ jsStartsWith "" "" = true)) := by
  decide

/-- C7 (amended to non-empty origin prefixes): the extractor output holds
exactly the href values that start with the origin prefix; a page none of
whose hrefs match yields the empty output; and a url that does not start
with the prefix gains no frontier row when the extracted links are
enqueued. -/
theorem c7_extract_scope (anchors : List (Option String)) (tgt : String)
    (h : tgt ≠ "") :
    (∀ l, l ∈ extractLinks anchors tgt
      ↔ (some l ∈ anchors ∧ jsStartsWith l tgt = true))
    ∧ ((∀ l, some l ∈ anchors → jsStartsWith l tgt = false) →
        extractLinks anchors tgt = [])
    ∧ (∀ st l, jsStartsWith l tgt = false →
        countUrl (queueUrls st (extractLinks anchors tgt)) l = countUrl st l) := by
  have hmem : ∀ l, l ∈ extractLinks anchors tgt
      ↔ (some l ∈ anchors ∧ jsStartsWith l tgt = true) := by
    intro l
    rw [mem_extractLinks]
    constructor
    · rintro ⟨ha, hp⟩
      simp only [Bool.and_eq_true] at hp
      exact ⟨ha, hp.2⟩
    · rintro ⟨ha, hs⟩
      refine ⟨ha, ?_⟩
      have hl : l ≠ "" := by
        intro hl0
        subst hl0
        rw [jsStartsWith_empty_false tgt h] at hs
        cases hs
      have hbne : (l != "") = true := by simp [hl]
      rw [hbne, hs]
      rfl
  refine ⟨hmem, ?_, ?_⟩
  · intro hnone
    apply List.eq_nil_iff_forall_not_mem.mpr
    intro l hl
    have h2 := (hmem l).mp hl
    have h3 := hnone l h2.1
    rw [h3] at h2
    cases h2.2
  · intro st l hls
    apply countUrl_queueUrls_not_mem
    intro hl
    have h2 := (hmem l).mp hl
    rw [hls] at h2
    cases h2.2

/-- Witness for C7 on a page with one in-scope link, one out-of-scope link
and one anchor without an href. -/
theorem c7_witness :
    ("https://example.com" : String) ≠ ""
    ∧ ((∀ l, l ∈ extractLinks [some "https://example.com/a",
          some "mailto:bob", none] "https://example.com"
        ↔ (some l ∈ ([some "https://example.com/a", some "mailto:bob", none]
              : List (Option String))
            ∧ jsStartsWith l "https://example.com" = true))
      ∧ ((∀ l, some l ∈ ([some "https://example.com/a", some "mailto:bob",
            none] : List (Option String)) →
            jsStartsWith l "https://example.com" = false) →
          extractLinks [some "https://example.com/a", some "mailto:bob", none]
            "https://example.com" = [])
      ∧ (∀ st l, jsStartsWith l "https://example.com" = false →
          countUrl (queueUrls st (extractLinks [some "https://example.com/a",
            some "mailto:bob", none] "https://example.com")) l
            = countUrl st l)) :=
  ⟨by decide, c7_extract_scope [some "https://example.com/a",
    some "mailto:bob", none] "https://example.com" (by decide)⟩

/-- C8: after dequeueUrl claims the selected entry, a fetch error leaves
both tables untouched (no page row is written), done() is still called (the
loop continues), the claimed row keeps is_crawled = 1, and no later
dequeueUrl selection can return that row again. -/
theorem c8_fetch_error_nonfatal (pages : List PageRow) (st : Frontier)
    (maxD : Nat) (e : Entry) (hsel : selectNext st maxD = some e) :
    (dequeueUrl st maxD).2 = dequeueMark st e.id
    ∧ (processPageError ⟨pages, dequeueMark st e.id⟩).db
        = ⟨pages, dequeueMark st e.id⟩
    ∧ (processPageError ⟨pages, dequeueMark st e.id⟩).doneCalled = true
    ∧ (∀ r ∈ dequeueMark st e.id, r.id = e.id → r.isCrawled = true)
    ∧ (∀ e2, selectNext (dequeueMark st e.id) maxD = some e2 →
        e2.id ≠ e.id) := by
  have hmark : ∀ r ∈ dequeueMark st e.id, r.id = e.id → r.isCrawled = true := by
    intro r hr hid
    rcases List.mem_map.mp hr with ⟨r0, hr0, hfr⟩
    by_cases hb : (r0.id == e.id) = true
    · rw [if_pos hb] at hfr
      rw [← hfr]
    · rw [if_neg hb] at hfr
      subst hfr
      exact absurd (by simpa using hid) hb
  refine ⟨?_, rfl, rfl, hmark, ?_⟩
  · simp [dequeueUrl, hsel]
  · intro e2 h2 hid
    have hs := selectNext_spec _ _ _ h2
    have hcl := hmark e2 hs.1 hid
    rw [hs.2.1] at hcl
    cases hcl

/-- Witness for C8 on a two-row frontier whose first row gets claimed. -/
theorem c8_witness :
    selectNext [⟨1, "https://a", 0, false⟩, ⟨2, "https://b", 1, false⟩] 3
      = some ⟨1, "https://a", 0, false⟩
    ∧ ((dequeueUrl [⟨1, "https://a", 0, false⟩, ⟨2, "https://b", 1, false⟩]
          3).2
        = dequeueMark [⟨1, "https://a", 0, false⟩, ⟨2, "https://b", 1, false⟩] 1
      ∧ (processPageError ⟨[], dequeueMark [⟨1, "https://a", 0, false⟩,
          ⟨2, "https://b", 1, false⟩] 1⟩).db
          = ⟨[], dequeueMark [⟨1, "https://a", 0, false⟩,
              ⟨2, "https://b", 1, false⟩] 1⟩
      ∧ (processPageError ⟨[], dequeueMark [⟨1, "https://a", 0, false⟩,
          ⟨2, "https://b", 1, false⟩] 1⟩).doneCalled = true
      ∧ (∀ r ∈ dequeueMark [⟨1, "https://a", 0, false⟩,
          ⟨2, "https://b", 1, false⟩] 1, r.id = 1 → r.isCrawled = true)
      ∧ (∀ e2, selectNext (dequeueMark [⟨1, "https://a", 0, false⟩,
          ⟨2, "https://b", 1, false⟩] 1) 3 = some e2 → e2.id ≠ 1)) :=
  ⟨by decide, c8_fetch_error_nonfatal [] [⟨1, "https://a", 0, false⟩,
    ⟨2, "https://b", 1, false⟩] 3 ⟨1, "https://a", 0, false⟩ (by decide)⟩

/-- Every row of st survives into st2 with the same id, url and depth, its
claimed flag either unchanged or flipped from false to true. -/
def preserves (st st2 : Frontier) : Prop :=
  ∀ e ∈ st, ∃ e2 ∈ st2, e2.id = e.id ∧ e2.url = e.url ∧ e2.depth = e.depth ∧
    (e2.isCrawled = e.isCrawled ∨ (e.isCrawled = false ∧ e2.isCrawled = true))

/-- C9: the three frontier mutations of the code - queueUrls (covering seed
and enqueue), the claim UPDATE of dequeueUrl, and markUrlAsCrawled - never
delete a row and never change a row's url or depth; the only change to an
existing row is its is_crawled flag going from false to true. -/
theorem c9_frontier_ops_preserve (st : Frontier) (urls : List String)
    (i : Nat) (u : String) :
    preserves st (queueUrls st urls)
    ∧ preserves st (dequeueMark st i)
    ∧ preserves st (markUrlAsCrawled st u) := by
  refine ⟨?_, ?_, ?_⟩
  · intro e he
    exact ⟨e, mem_queueUrls urls st e he, rfl, rfl, rfl, Or.inl rfl⟩
  · intro e he
    refine ⟨(if e.id == i then { e with isCrawled := true } else e),
      List.mem_map_of_mem _ he, ?_⟩
    by_cases hb : (e.id == i) = true
    · rw [if_pos hb]
      refine ⟨rfl, rfl, rfl, ?_⟩
      cases hc : e.isCrawled with
      | false => exact Or.inr ⟨rfl, rfl⟩
      | true => exact Or.inl rfl
    · rw [if_neg hb]
      exact ⟨rfl, rfl, rfl, Or.inl rfl⟩
  · intro e he
    refine ⟨(if e.url == u then { e with isCrawled := true } else e),
      List.mem_map_of_mem _ he, ?_⟩
    by_cases hb : (e.url == u) = true
    · rw [if_pos hb]
      refine ⟨rfl, rfl, rfl, ?_⟩
      cases hc : e.isCrawled with
      | false => exact Or.inr ⟨rfl, rfl⟩
      | true => exact Or.inl rfl
    · rw [if_neg hb]
      exact ⟨rfl, rfl, rfl, Or.inl rfl⟩

/-- Witness for C9 on a concrete two-row frontier. -/
theorem c9_witness :
    preserves [⟨1, "https://a", 0, false⟩, ⟨2, "https://b", 1, true⟩]
      (queueUrls [⟨1, "https://a", 0, false⟩, ⟨2, "https://b", 1, true⟩]
        ["https://c"])
    ∧ preserves [⟨1, "https://a", 0, false⟩, ⟨2, "https://b", 1, true⟩]
        (dequeueMark [⟨1, "https://a", 0, false⟩, ⟨2, "https://b", 1, true⟩] 1)
    ∧ preserves [⟨1, "https://a", 0, false⟩, ⟨2, "https://b", 1, true⟩]
        (markUrlAsCrawled [⟨1, "https://a", 0, false⟩,
          ⟨2, "https://b", 1, true⟩] "https://a") :=
  c9_frontier_ops_preserve [⟨1, "https://a", 0, false⟩,
    ⟨2, "https://b", 1, true⟩] ["https://c"] 1 "https://a"

theorem any_url_odkuWrite (ps : List PageRowJ) (u : JSVal) (t : String)
    (d : Option String) (raw : String) :
    ((odkuWrite ps u t d raw).any fun p => p.url == u) = true := by
  cases hb : ps.any (fun p => p.url == u) with
  | true =>
    rcases List.any_eq_true.mp hb with ⟨p, hp, hpu⟩
    simp only [odkuWrite, hb, if_true]
    apply List.any_eq_true.mpr
    exact ⟨_, List.mem_map_of_mem _ hp, by simp [hpu]⟩
  | false =>
    simp only [odkuWrite, hb, Bool.false_eq_true, if_false]
    simp [List.any_append]

/-- C10 counterexample: at uri = undefined - a non-string uri value - the
page INSERT binds SQL NULL for the NOT NULL url column and errors before the
typeof check: the callback does not throw "url is not string", writes no
page row, and done() is still not invoked; so the claim as stated fails for
this non-string uri. -/
theorem c10_counterexample :
    (crawl [] [] JSVal.undef "t" none "raw" 0 0 []
        "https://example.com").thrown ≠ some "url is not string"
    ∧ (crawl [] [] JSVal.undef "t" none "raw" 0 0 []
        "https://example.com").pages = []
    ∧ (crawl [] [] JSVal.undef "t" none "raw" 0 0 []
        "https://example.com").doneCalled = false := by
  decide

/-- C10 (amended to non-string uri values whose SQL binding is not NULL,
such as numbers): the crawl callback throws "url is not string" after the
page upsert has been performed (the pages table holds a row for the uri
value) and before markUrlAsCrawled, and done() is never invoked. A uri
binding to SQL NULL instead fails inside the INSERT, before the typeof
check. -/
theorem c10_crawl_nonstring_uri (pages : List PageRowJ) (queue : Frontier)
    (uri : JSVal) (t : String) (d : Option String) (raw : String)
    (dep maxD : Nat) (anchors : List (Option String)) (tgt : String)
    (h : uri.isString = false) (hn : sqlBindIsNull uri = false) :
    (crawl pages queue uri t d raw dep maxD anchors tgt).thrown
      = some "url is not string"
    ∧ (crawl pages queue uri t d raw dep maxD anchors tgt).pages
        = odkuWrite pages uri t d raw
    ∧ ((crawl pages queue uri t d raw dep maxD anchors tgt).pages.any
        (fun p => p.url == uri)) = true
    ∧ (crawl pages queue uri t d raw dep maxD anchors tgt).markedCrawled
        = false
    ∧ (crawl pages queue uri t d raw dep maxD anchors tgt).doneCalled
        = false := by
  cases uri with
  | str s => simp [JSVal.isString] at h
  | undef => simp [sqlBindIsNull] at hn
  | num n => exact ⟨rfl, rfl, any_url_odkuWrite _ _ _ _ _, rfl, rfl⟩

/-- Witness for C10 with a numeric uri value. -/
theorem c10_witness :
    JSVal.isString (JSVal.num 7) = false
    ∧ sqlBindIsNull (JSVal.num 7) = false
    ∧ ((crawl [] [] (JSVal.num 7) "t" none "raw" 0 0 []
          "https://example.com").thrown = some "url is not string"
      ∧ (crawl [] [] (JSVal.num 7) "t" none "raw" 0 0 []
          "https://example.com").pages
          = odkuWrite [] (JSVal.num 7) "t" none "raw"
      ∧ ((crawl [] [] (JSVal.num 7) "t" none "raw" 0 0 []
          "https://example.com").pages.any
          (fun p => p.url == JSVal.num 7)) = true
      ∧ (crawl [] [] (JSVal.num 7) "t" none "raw" 0 0 []
          "https://example.com").markedCrawled = false
      ∧ (crawl [] [] (JSVal.num 7) "t" none "raw" 0 0 []
          "https://example.com").doneCalled = false) :=
  ⟨rfl, rfl, c10_crawl_nonstring_uri [] [] (JSVal.num 7) "t" none "raw" 0 0 []
    "https://example.com" rfl rfl⟩

end WebXenon
